import Mathlib

/-!
Shallow embedding of `metagov/core/models.py` (the metagov governance core):
link-quality ordering, identity resolution (`MetagovID`, `LinkedAccount`,
`Plugin.add_linked_account`), the action dispatcher (`Community.perform_action`),
the key-value state store (`DataStore`), and the governance-process start
lifecycle (`Plugin.start_process`).

Django model rows become Lean structures; the database becomes explicit lists
of rows threaded through each operation; Python exceptions become `Except`.
-/

/-- `LinkQuality` enum from models.py: confidence ranking of an account link. -/
inductive LinkQuality where
  | unknown
  | unconfirmed
  | weakConfirm
  | strongConfirm
deriving DecidableEq, Repr

/-- Position of a quality value in the `order` list of `quality_is_greater`:
`[UNKNOWN, UNCONFIRMED, WEAK_CONFIRM, STRONG_CONFIRM]` (`order.index`). -/
def LinkQuality.idx : LinkQuality → Nat
  | .unknown => 0
  | .unconfirmed => 1
  | .weakConfirm => 2
  | .strongConfirm => 3

/-- `quality_is_greater(a, b)` from models.py: `order.index(a) > order.index(b)`. -/
def quality_is_greater (a b : LinkQuality) : Bool :=
  a.idx > b.idx

/-- `LinkType` enum from models.py. -/
inductive LinkType where
  | oauth
  | manualAdmin
  | emailMatching
  | unknownLink
deriving DecidableEq, Repr

/-! ## MetagovID (models.py lines 416-460)

A `MetagovID` row. `pk` is the Django primary key (`None` before the first
save). `linked_ids` is the many-to-many set of merged ids; for the save-time
validation and for `get_primary_id` only the own `primary` flag of each linked id
and whether it has any links of its own are consulted, so a linked id is
embedded as that pair. -/

/-- View of one member of `linked_ids.all()`: its `primary` flag and whether
its own `linked_ids` set is empty. -/
structure LinkedIDView where
  primary : Bool
  noLinks : Bool
deriving DecidableEq, Repr

/-- A `MetagovID` row, with its `linked_ids.all()` materialised as a list. -/
structure MetagovID where
  pk : Option Nat
  primary : Bool
  linked_ids : List LinkedIDView
deriving DecidableEq, Repr

/-- Number of `True` flags in `[self.primary] + [l.primary for l in self.linked_ids.all()]`,
the `true_count` computed by `MetagovID.save`. -/
def MetagovID.trueCount (m : MetagovID) : Nat :=
  (if m.primary then 1 else 0) + (m.linked_ids.filter (·.primary)).length

/-- `MetagovID.save` from models.py: when the instance already has a pk and
has linked ids, raise `IntegrityError` unless exactly one of the flags (its
own plus that of each linked id) is true; otherwise persist (`.ok`). -/
def MetagovID.save (m : MetagovID) : Except String Unit :=
  if m.pk.isSome ∧ m.linked_ids ≠ [] then
    if m.trueCount = 0 then
      .error "At least one linked ID must have primary attribute set to True."
    else if m.trueCount > 1 then
      .error "More than one linked ID has primary attribute set to True."
    else
      .ok ()
  else
    .ok ()

/-- `MetagovID.is_primary` from models.py: true when the `primary` flag is set
or the id has no linked ids at all. -/
def MetagovID.is_primary (m : MetagovID) : Bool :=
  m.primary || m.linked_ids.length == 0

/-- `is_primary` evaluated on a member of `linked_ids.all()`. -/
def LinkedIDView.is_primary (l : LinkedIDView) : Bool :=
  l.primary || l.noLinks

/-- Result of `get_primary_id`: the instance itself, or one of its linked ids. -/
inductive PrimaryResult where
  | self
  | linked (l : LinkedIDView)
deriving DecidableEq, Repr

/-- `MetagovID.get_primary_id` from models.py: return `self` if `is_primary`,
else scan `linked_ids` for the first member whose `is_primary` holds, else
raise `ValueError`. -/
def MetagovID.get_primary_id (m : MetagovID) : Except String PrimaryResult :=
  if m.is_primary then
    .ok .self
  else
    match m.linked_ids.find? (·.is_primary) with
    | some l => .ok (.linked l)
    | none => .error "No primary ID associated with this external id"

/-! ## JSON values and the jsonpickle codec (DataStore, models.py lines 89-108)

`DataStore.set` stores `jsonpickle.encode(value)` (a string) under the key;
`DataStore.get` returns `jsonpickle.decode` of the stored string, or `None`
when the key is absent. JSON-representable Python values (arbitrary nestings
of mappings with string keys, sequences, and scalars) are embedded as `JVal`;
the jsonpickle string codec, which on such values is plain JSON serialisation,
is embedded as a token-stream serialiser `JVal.encode` with recursive-descent
inverse `decodeVal`. -/

mutual
inductive JVal where
  | jnull
  | jbool (b : Bool)
  | jint (n : Int)
  | jstr (s : String)
  | jarr (a : JArr)
  | jobj (o : JObj)
deriving DecidableEq, Repr
inductive JArr where
  | nil
  | cons (v : JVal) (rest : JArr)
deriving DecidableEq, Repr
inductive JObj where
  | nil
  | cons (k : String) (v : JVal) (rest : JObj)
deriving DecidableEq, Repr
end

/-- Serialised tokens: scalar literals, array brackets, object braces, keys. -/
inductive Tok where
  | tnull
  | tbool (b : Bool)
  | tint (n : Int)
  | tstr (s : String)
  | arrOpen
  | arrClose
  | objOpen
  | objClose
deriving DecidableEq, Repr

mutual
/-- Serialise a JSON value to its token stream (models `jsonpickle.encode`). -/
def JVal.encode : JVal → List Tok
  | .jnull => [.tnull]
  | .jbool b => [.tbool b]
  | .jint n => [.tint n]
  | .jstr s => [.tstr s]
  | .jarr a => Tok.arrOpen :: a.encodeItems ++ [Tok.arrClose]
  | .jobj o => Tok.objOpen :: o.encodeFields ++ [Tok.objClose]
/-- Serialise array items, without the surrounding brackets. -/
def JArr.encodeItems : JArr → List Tok
  | .nil => []
  | .cons v rest => v.encode ++ rest.encodeItems
/-- Serialise object fields (key token then value), without the braces. -/
def JObj.encodeFields : JObj → List Tok
  | .nil => []
  | .cons k v rest => Tok.tstr k :: v.encode ++ rest.encodeFields
end

mutual
/-- Parse one JSON value from a token stream; returns it with the remainder.
`fuel` bounds recursion depth; `decodeFull` supplies enough of it. -/
def decodeVal : Nat → List Tok → Option (JVal × List Tok)
  | 0, _ => none
  | _ + 1, Tok.tnull :: r => some (.jnull, r)
  | _ + 1, Tok.tbool b :: r => some (.jbool b, r)
  | _ + 1, Tok.tint n :: r => some (.jint n, r)
  | _ + 1, Tok.tstr s :: r => some (.jstr s, r)
  | fuel + 1, Tok.arrOpen :: r =>
    match decodeItems fuel r with
    | some (a, r1) => some (.jarr a, r1)
    | none => none
  | fuel + 1, Tok.objOpen :: r =>
    match decodeFields fuel r with
    | some (o, r1) => some (.jobj o, r1)
    | none => none
  | _ + 1, _ => none
/-- Parse array items up to and including the closing bracket. -/
def decodeItems : Nat → List Tok → Option (JArr × List Tok)
  | 0, _ => none
  | fuel + 1, toks =>
    if toks.head? = some Tok.arrClose then
      some (.nil, toks.tail)
    else
      match decodeVal fuel toks with
      | some (v, r1) =>
        match decodeItems fuel r1 with
        | some (a, r2) => some (.cons v a, r2)
        | none => none
      | none => none
/-- Parse object fields up to and including the closing brace. -/
def decodeFields : Nat → List Tok → Option (JObj × List Tok)
  | 0, _ => none
  | fuel + 1, toks =>
    match toks with
    | Tok.objClose :: r => some (.nil, r)
    | Tok.tstr k :: r =>
      match decodeVal fuel r with
      | some (v, r1) =>
        match decodeFields fuel r1 with
        | some (o, r2) => some (.cons k v o, r2)
        | none => none
      | none => none
    | _ => none
end

mutual
/-- Fuel sufficient to decode an encoded value. -/
def JVal.sz : JVal → Nat
  | .jnull | .jbool _ | .jint _ | .jstr _ => 1
  | .jarr a => a.szItems + 1
  | .jobj o => o.szFields + 1
def JArr.szItems : JArr → Nat
  | .nil => 1
  | .cons v rest => v.sz + rest.szItems
def JObj.szFields : JObj → Nat
  | .nil => 1
  | .cons _ v rest => v.sz + rest.szFields
end

/-- Every JSON value needs at least one unit of fuel. -/
theorem one_le_sz (v : JVal) : 1 ≤ v.sz := by
  cases v <;> simp [JVal.sz]

/-- Item lists need at least one unit of fuel. -/
theorem one_le_szItems (a : JArr) : 1 ≤ a.szItems := by
  cases a with
  | nil => simp [JArr.szItems]
  | cons v vs => have := one_le_sz v; simp [JArr.szItems]; omega

/-- Field lists need at least one unit of fuel. -/
theorem one_le_szFields (o : JObj) : 1 ≤ o.szFields := by
  cases o with
  | nil => simp [JObj.szFields]
  | cons k v os => have := one_le_sz v; simp [JObj.szFields]; omega

/-- An encoded value starts with a token, and never with a closing bracket. -/
theorem encode_head_ne_close (v : JVal) :
    ∃ t ts, v.encode = t :: ts ∧ t ≠ Tok.arrClose := by
  cases v <;> exact ⟨_, _, rfl, by simp⟩

mutual
/-- Decoding inverts encoding for a single value, for any sufficient fuel. -/
theorem rt_val (v : JVal) : ∀ (fuel : Nat) (rest : List Tok),
    v.sz ≤ fuel → decodeVal fuel (v.encode ++ rest) = some (v, rest) := by
  cases v with
  | jnull =>
    intro fuel rest h
    cases fuel with
    | zero => exact absurd (Nat.le_trans (one_le_sz _) h) (by omega)
    | succ f => simp [JVal.encode, decodeVal]
  | jbool b =>
    intro fuel rest h
    cases fuel with
    | zero => exact absurd (Nat.le_trans (one_le_sz _) h) (by omega)
    | succ f => simp [JVal.encode, decodeVal]
  | jint n =>
    intro fuel rest h
    cases fuel with
    | zero => exact absurd (Nat.le_trans (one_le_sz _) h) (by omega)
    | succ f => simp [JVal.encode, decodeVal]
  | jstr s =>
    intro fuel rest h
    cases fuel with
    | zero => exact absurd (Nat.le_trans (one_le_sz _) h) (by omega)
    | succ f => simp [JVal.encode, decodeVal]
  | jarr a =>
    intro fuel rest h
    cases fuel with
    | zero => exact absurd (Nat.le_trans (one_le_sz _) h) (by omega)
    | succ f =>
      have hi : a.szItems ≤ f := by
        have h2 : a.szItems + 1 ≤ f + 1 := by simpa [JVal.sz] using h
        omega
      have hrec := rt_items a f rest hi
      simp only [JVal.encode, List.cons_append, List.append_assoc, List.cons_append]
      simp [decodeVal, hrec]
  | jobj o =>
    intro fuel rest h
    cases fuel with
    | zero => exact absurd (Nat.le_trans (one_le_sz _) h) (by omega)
    | succ f =>
      have hi : o.szFields ≤ f := by
        have h2 : o.szFields + 1 ≤ f + 1 := by simpa [JVal.sz] using h
        omega
      have hrec := rt_fields o f rest hi
      simp only [JVal.encode, List.cons_append, List.append_assoc, List.cons_append]
      simp [decodeVal, hrec]

/-- Decoding inverts encoding for array items followed by the close bracket. -/
theorem rt_items (a : JArr) : ∀ (fuel : Nat) (rest : List Tok),
    a.szItems ≤ fuel →
    decodeItems fuel (a.encodeItems ++ Tok.arrClose :: rest) = some (a, rest) := by
  cases a with
  | nil =>
    intro fuel rest h
    cases fuel with
    | zero => exact absurd (Nat.le_trans (one_le_szItems _) h) (by omega)
    | succ f => simp [JArr.encodeItems, decodeItems]
  | cons v vs =>
    intro fuel rest h
    cases fuel with
    | zero => exact absurd (Nat.le_trans (one_le_szItems _) h) (by omega)
    | succ f =>
      have h2 : v.sz + vs.szItems ≤ f + 1 := by simpa [JArr.szItems] using h
      have hv : v.sz ≤ f := by have := one_le_szItems vs; omega
      have hs : vs.szItems ≤ f := by have := one_le_sz v; omega
      obtain ⟨t, ts, henc, hne⟩ := encode_head_ne_close v
      have hrecv := rt_val v f (vs.encodeItems ++ Tok.arrClose :: rest) hv
      have hrecs := rt_items vs f rest hs
      simp only [JArr.encodeItems, List.append_assoc]
      simp only [decodeItems]
      rw [show (v.encode ++ (vs.encodeItems ++ Tok.arrClose :: rest)).head?
          = some t from by rw [henc]; rfl]
      simp [hne, hrecv, hrecs]

/-- Decoding inverts encoding for object fields followed by the close brace. -/
theorem rt_fields (o : JObj) : ∀ (fuel : Nat) (rest : List Tok),
    o.szFields ≤ fuel →
    decodeFields fuel (o.encodeFields ++ Tok.objClose :: rest) = some (o, rest) := by
  cases o with
  | nil =>
    intro fuel rest h
    cases fuel with
    | zero => exact absurd (Nat.le_trans (one_le_szFields _) h) (by omega)
    | succ f => simp [JObj.encodeFields, decodeFields]
  | cons k v os =>
    intro fuel rest h
    cases fuel with
    | zero => exact absurd (Nat.le_trans (one_le_szFields _) h) (by omega)
    | succ f =>
      have h2 : v.sz + os.szFields ≤ f + 1 := by simpa [JObj.szFields] using h
      have hv : v.sz ≤ f := by have := one_le_szFields os; omega
      have hs : os.szFields ≤ f := by have := one_le_sz v; omega
      have hrecv := rt_val v f (os.encodeFields ++ Tok.objClose :: rest) hv
      have hrecs := rt_fields os f rest hs
      simp only [JObj.encodeFields, List.cons_append, List.append_assoc]
      simp [decodeFields, hrecv, hrecs]
end

mutual
/-- The fuel bound is covered by the length of the encoding. -/
theorem sz_le_encode_length (v : JVal) : v.sz ≤ v.encode.length := by
  cases v with
  | jnull => simp [JVal.sz, JVal.encode]
  | jbool b => simp [JVal.sz, JVal.encode]
  | jint n => simp [JVal.sz, JVal.encode]
  | jstr s => simp [JVal.sz, JVal.encode]
  | jarr a =>
    have := szItems_le_encodeItems_length a
    simp only [JVal.sz, JVal.encode, List.length_cons, List.length_append]
    simp
    omega
  | jobj o =>
    have := szFields_le_encodeFields_length o
    simp only [JVal.sz, JVal.encode, List.length_cons, List.length_append]
    simp
    omega

/-- Fuel bound for item lists, against their encoding length. -/
theorem szItems_le_encodeItems_length (a : JArr) :
    a.szItems ≤ a.encodeItems.length + 1 := by
  cases a with
  | nil => simp [JArr.szItems, JArr.encodeItems]
  | cons v vs =>
    have h1 := sz_le_encode_length v
    have h2 := szItems_le_encodeItems_length vs
    simp only [JArr.szItems, JArr.encodeItems, List.length_append]
    omega

/-- Fuel bound for field lists, against their encoding length. -/
theorem szFields_le_encodeFields_length (o : JObj) :
    o.szFields ≤ o.encodeFields.length + 1 := by
  cases o with
  | nil => simp [JObj.szFields, JObj.encodeFields]
  | cons k v os =>
    have h1 := sz_le_encode_length v
    have h2 := szFields_le_encodeFields_length os
    simp only [JObj.szFields, JObj.encodeFields, List.length_cons, List.length_append]
    omega
end

/-- Decode a complete token stream into a value (models `jsonpickle.decode`):
the stream must parse as one value with nothing left over. -/
def decodeFull (toks : List Tok) : Option JVal :=
  match decodeVal toks.length toks with
  | some (v, []) => some v
  | _ => none

/-- Decoding a full encoding recovers the value. -/
theorem decodeFull_encode (v : JVal) : decodeFull v.encode = some v := by
  have h := rt_val v v.encode.length [] (sz_le_encode_length v)
  rw [List.append_nil] at h
  simp [decodeFull, h]

/-- A `DataStore` row (models.py lines 89-108): its `datastore` JSON dict maps
each key to the jsonpickle-encoded string stored by `set`, embedded as a
finite map from keys to token streams. -/
structure DataStore where
  datastore : String → Option (List Tok)

/-- `DataStore.set`: stores `jsonpickle.encode(value)` under the key and saves. -/
def DataStore.set (s : DataStore) (key : String) (value : JVal) : DataStore :=
  ⟨fun k => if k = key then some value.encode else s.datastore k⟩

/-- `DataStore.get`: returns `None` when the key is absent, otherwise
`jsonpickle.decode` of the stored string. -/
def DataStore.get (s : DataStore) (key : String) : Option JVal :=
  match s.datastore key with
  | some enc => decodeFull enc
  | none => none

/-! ## Action dispatcher (`Community.perform_action`, models.py lines 65-86)

The registry/plugin lookup (lines 70-72) resolves the action metadata and the
bound handler; the embedding takes the resolved metadata and handler as
arguments and covers the validation/invocation logic of lines 74-86. The
parameters dict is a `JObj`; `None` parameters and `{}` are both falsy in
Python and both invoke the handler with no arguments, so both are embedded as
`JObj.nil`. -/

/-- JSON Schema `type` keyword values (the fragment the embedding needs). -/
inductive JTy where
  | objectTy
  | arrayTy
  | stringTy
  | numberTy
  | booleanTy
  | nullTy
deriving DecidableEq, Repr

/-- The JSON type of a value. -/
def JVal.jty : JVal → JTy
  | .jnull => .nullTy
  | .jbool _ => .booleanTy
  | .jint _ => .numberTy
  | .jstr _ => .stringTy
  | .jarr _ => .arrayTy
  | .jobj _ => .objectTy

/-- Does an object carry the given key? -/
def JObj.hasKey : JObj → String → Bool
  | .nil, _ => false
  | .cons k _ rest, key => k == key || rest.hasKey key

/-- A JSON schema fragment: optional `type` keyword and `required` keys
(`required` constrains only object instances, as in JSON Schema). -/
structure Schema where
  jtype : Option JTy
  required : List String
deriving DecidableEq, Repr

/-- `jsonschema.validate` on the embedded schema fragment: `true` when the
instance conforms. -/
def validateJ (v : JVal) (s : Schema) : Bool :=
  (match s.jtype with
   | some t => v.jty == t
   | none => true)
  && (match v with
      | .jobj o => s.required.all (fun k => o.hasKey k)
      | _ => true)

/-- Python truthiness of a JSON value (`None`, `False`, `0`, `""`, `[]`, `{}`
are falsy). -/
def jtruthy : JVal → Bool
  | .jnull => false
  | .jbool b => b
  | .jint n => n != 0
  | .jstr s => s != ""
  | .jarr .nil => false
  | .jarr _ => true
  | .jobj .nil => false
  | .jobj _ => true

/-- Python truthiness of the parameters dict. -/
def JObj.isEmptyObj : JObj → Bool
  | .nil => true
  | .cons _ _ _ => false

/-- Resolved action metadata from `cls._action_registry[action_id]`. -/
structure ActionMeta where
  input_schema : Option Schema
  output_schema : Option Schema
deriving DecidableEq, Repr

/-- Typed errors raised by dispatch: `jsonschema.ValidationError` on the
parameters, or on the result. -/
inductive DispatchErr where
  | invalidParameters
  | invalidResult
deriving DecidableEq, Repr

/-- Lines 79-86 of models.py: invoke the bound handler, then validate the
result when validation is on, an output schema exists and the result is
truthy. The returned `Bool` records that the handler was invoked. -/
def invokeAction (meta : ActionMeta) (handler : JObj → JVal) (parameters : JObj)
    (jsonschema_validation : Bool) : Except DispatchErr JVal × Bool :=
  let result := handler parameters
  match meta.output_schema, jsonschema_validation && jtruthy result with
  | some s, true =>
    if validateJ result s then (.ok result, true) else (.error .invalidResult, true)
  | _, _ => (.ok result, true)

/-- `Community.perform_action` (models.py lines 65-86, after plugin lookup):
validate the parameters when validation is on, an input schema exists and the
parameters are truthy; on mismatch raise without invoking the handler;
otherwise invoke the handler and validate the result. The returned `Bool`
records whether the handler was invoked. -/
def perform_action (meta : ActionMeta) (handler : JObj → JVal) (parameters : JObj)
    (jsonschema_validation : Bool) : Except DispatchErr JVal × Bool :=
  match meta.input_schema, jsonschema_validation && !parameters.isEmptyObj with
  | some s, true =>
    if validateJ (.jobj parameters) s then
      invokeAction meta handler parameters jsonschema_validation
    else
      (.error .invalidParameters, false)
  | _, _ => invokeAction meta handler parameters jsonschema_validation

/-! ## LinkedAccount and identity resolution (models.py lines 256-290, 463-519)

A `LinkedAccount` row; communities are identified by their id. The
`metagov.core.identity` helpers (`retrieve_account`, `update_linked_account`,
`link_account`, `create_id`) are not part of models.py and are modelled from
the spec where noted. -/

/-- A `LinkedAccount` row. `pk` is `none` before the first save. -/
structure LinkedAccountR where
  pk : Option Nat
  metagov_id : Nat
  community : Nat
  community_platform_id : Option String
  platform_type : String
  platform_identifier : String
  custom_data : JObj
  link_type : LinkType
  link_quality : LinkQuality
deriving DecidableEq, Repr

/-- The LinkedAccount uniqueness tuple (community, platform type, platform
identifier, community_platform_id), as filtered by `LinkedAccount.save` and
looked up by `identity.retrieve_account`. -/
def matchesTuple (community : Nat) (platform_type platform_identifier : String)
    (community_platform_id : Option String) (r : LinkedAccountR) : Bool :=
  r.community == community && r.platform_type == platform_type
    && r.platform_identifier == platform_identifier
    && r.community_platform_id == community_platform_id

/-- A fresh pk for an inserted row: one past the largest pk in the table. -/
def freshPk (db : List LinkedAccountR) : Nat :=
  (db.map (fun r => r.pk.getD 0)).foldr max 0 + 1

/-- `LinkedAccount.save` (models.py lines 492-507): filter the table by the
uniqueness tuple; raise `IntegrityError` when the instance is unsaved and a
match exists, or is saved and the first match is a different row; otherwise
persist (insert with a fresh pk, or update the row in place). -/
def LinkedAccount.save (a : LinkedAccountR) (db : List LinkedAccountR) :
    Except String (List LinkedAccountR) :=
  let result := db.filter (matchesTuple a.community a.platform_type
    a.platform_identifier a.community_platform_id)
  if (a.pk = none ∧ result ≠ []) ∨
      (a.pk ≠ none ∧ result ≠ [] ∧ (result.head?.map (·.pk)) ≠ some a.pk) then
    .error "LinkedAccount with the following already exists"
  else
    match a.pk with
    | none => .ok (db ++ [{a with pk := some (freshPk db)}])
    | some pk => .ok (db.map (fun r => if r.pk = some pk then a else r))

/-- The database state seen by save: on `IntegrityError` the write is
rejected and the table keeps its prior rows. -/
def LinkedAccount.trySave (a : LinkedAccountR) (db : List LinkedAccountR) :
    List LinkedAccountR :=
  match LinkedAccount.save a db with
  | .ok db2 => db2
  | .error _ => db

/-- Identity-engine state: the LinkedAccount table plus the id mints. -/
structure IdentityState where
  accounts : List LinkedAccountR
  nextExternalId : Nat
  nextAccountPk : Nat
deriving DecidableEq, Repr

/-- Modelled from the spec: `identity.retrieve_account` (module
`metagov.core.identity`, outside src/) — exact-match lookup by the
LinkedAccount uniqueness tuple; raises `ValueError` (`NotFound`) if absent. -/
def retrieve_account (db : List LinkedAccountR) (community : Nat)
    (platform_type platform_identifier : String)
    (community_platform_id : Option String) : Except String LinkedAccountR :=
  match db.find? (matchesTuple community platform_type platform_identifier
      community_platform_id) with
  | some r => .ok r
  | none => .error "account not found"

/-- Modelled from the spec: `identity.update_linked_account` (outside src/) —
in-place update of custom_data/link_type/link_quality on the existing
LinkedAccount matched by its uniqueness tuple; optional parameters whose
value was stripped as null leave the stored field unchanged. -/
def update_linked_account (db : List LinkedAccountR) (community : Nat)
    (platform_type platform_identifier : String)
    (community_platform_id : Option String) (custom_data : Option JObj)
    (link_type : Option LinkType) (link_quality : Option LinkQuality) :
    Except String (LinkedAccountR × List LinkedAccountR) :=
  match db.find? (matchesTuple community platform_type platform_identifier
      community_platform_id) with
  | some r =>
    let r2 := { r with
      custom_data := custom_data.getD r.custom_data
      link_type := link_type.getD r.link_type
      link_quality := link_quality.getD r.link_quality }
    .ok (r2, db.map (fun x => if x.pk = r.pk then r2 else x))
  | none => .error "account not found"

/-- Modelled from the spec: `identity.create_id` (outside src/) — mints a
fresh MetagovID with a new unique external id and returns that id. -/
def create_id (st : IdentityState) : Nat × IdentityState :=
  (st.nextExternalId, { st with nextExternalId := st.nextExternalId + 1 })

/-- Modelled from the spec: `identity.link_account` (outside src/) — resolves
the MetagovID by external id and creates a new LinkedAccount bound to it;
fails with `DuplicateLink` if the uniqueness tuple is already claimed. -/
def link_account (st : IdentityState) (external_id : Nat) (community : Nat)
    (platform_type platform_identifier : String)
    (community_platform_id : Option String) (custom_data : Option JObj)
    (link_type : Option LinkType) (link_quality : Option LinkQuality) :
    Except String (LinkedAccountR × IdentityState) :=
  if (st.accounts.find? (matchesTuple community platform_type
      platform_identifier community_platform_id)).isSome then
    .error "duplicate link"
  else
    let r : LinkedAccountR := {
      pk := some st.nextAccountPk
      metagov_id := external_id
      community := community
      community_platform_id := community_platform_id
      platform_type := platform_type
      platform_identifier := platform_identifier
      custom_data := custom_data.getD .nil
      link_type := link_type.getD .unknownLink
      link_quality := link_quality.getD .unknown }
    let st2 : IdentityState :=
      { st with accounts := st.accounts ++ [r], nextAccountPk := st.nextAccountPk + 1 }
    .ok (r, st2)

/-- `Plugin.add_linked_account` (models.py lines 256-290). The plugin instance
contributes its `community`, `name` (the platform type) and
`community_platform_id`. If the account exists, update it only when the new
link quality is given and `quality_is_greater` than the stored one, else
return it unchanged; if the lookup raises `ValueError`, mint an external id
when none was given and create the account via `link_account`. -/
def Plugin.add_linked_account (community : Nat) (name : String)
    (community_platform_id : Option String) (st : IdentityState)
    (platform_identifier : String) (external_id : Option Nat)
    (custom_data : Option JObj) (link_type : Option LinkType)
    (link_quality : Option LinkQuality) :
    Except String (LinkedAccountR × IdentityState) :=
  match retrieve_account st.accounts community name platform_identifier
      community_platform_id with
  | .ok r =>
    match link_quality with
    | some q =>
      if quality_is_greater q r.link_quality then
        match update_linked_account st.accounts community name
            platform_identifier community_platform_id custom_data link_type
            (some q) with
        | .ok (r2, db2) => .ok (r2, { st with accounts := db2 })
        | .error e => .error e
      else
        .ok (r, st)
    | none => .ok (r, st)
  | .error _ =>
    let minted := match external_id with
      | some e => (e, st)
      | none => create_id st
    link_account minted.2 minted.1 community name platform_identifier
      community_platform_id custom_data link_type link_quality

/-! ## Governance-process start lifecycle (models.py lines 190-210, 345-348)

The engine state holds the `GovernanceProcess` and `DataStore` tables. The
type-specific `start` logic is a parameter returning either the updated
process or an exception. -/

/-- Lifecycle status of a governance process. -/
inductive ProcessStatus where
  | createdStatus
  | pendingStatus
  | completedStatus
deriving DecidableEq, Repr

/-- A `GovernanceProcess` row. `statePk` is the `state` foreign key to the
`DataStore` row created by the first save. -/
structure ProcessR where
  pk : Nat
  name : String
  statePk : Nat
  status : ProcessStatus
  callback_url : Option String
deriving DecidableEq, Repr

/-- The database of the process engine: process rows, data-store row pks, and
the autoincrement counters of the two tables. -/
structure EngineState where
  processes : List ProcessR
  datastores : List Nat
  nextProcessPk : Nat
  nextDataStorePk : Nat
deriving DecidableEq, Repr

/-- `cls.objects.create(...)` through `GovernanceProcess.save` (models.py
lines 345-348): a fresh instance first creates a `DataStore` row, assigns it
to `state`, then inserts the process row in `created` status. -/
def createProcess (s : EngineState) (process_name : String)
    (callback_url : Option String) : ProcessR × EngineState :=
  let ds := s.nextDataStorePk
  let p : ProcessR := ⟨s.nextProcessPk, process_name, ds, .createdStatus, callback_url⟩
  (p, ⟨s.processes ++ [p], s.datastores ++ [ds], s.nextProcessPk + 1, ds + 1⟩)

/-- `new_process.delete()`: Django deletes the process row. The referenced
`DataStore` row is not cascade-deleted: the `on_delete=CASCADE` declared on
the `state` field cascades from the `DataStore` to the process, not the
reverse. -/
def deleteProcess (s : EngineState) (pk : Nat) : EngineState :=
  { s with processes := s.processes.filter (fun p => p.pk ≠ pk) }

/-- `Plugin.start_process` (models.py lines 190-210), after parameter
coercion: create the process row (and its data store), invoke the
type-specific `start`; if it raises, delete the process row and re-raise;
on success persist the process as `start` left it. -/
def Plugin.start_process (s : EngineState) (process_name : String)
    (callback_url : Option String)
    (startLogic : ProcessR → Except String ProcessR) :
    Except String ProcessR × EngineState :=
  let created := createProcess s process_name callback_url
  match startLogic created.1 with
  | .ok p2 =>
    let persisted := created.2.processes.map (fun x => if x.pk = created.1.pk then p2 else x)
    (.ok p2, { created.2 with processes := persisted })
  | .error e => (.error e, deleteProcess created.2 created.1.pk)

/-- Data-store rows referenced by no process row: the orphans. -/
def orphanDataStores (s : EngineState) : List Nat :=
  s.datastores.filter (fun d => !(s.processes.any (fun p => p.statePk == d)))

/-! ## Claim theorems -/

/-- Claim C8: `DataStore.set(key, v)` followed by `DataStore.get(key)` on the
same store returns a value deep-equal to `v`, for every key and every
JSON-representable value built from nested mappings, sequences and scalars. -/
theorem datastore_set_get_roundtrip (s : DataStore) (key : String) (v : JVal) :
    (s.set key v).get key = some v := by
  simp [DataStore.set, DataStore.get, decodeFull_encode]

/-- Claim C5: for a persisted MetagovID with at least one linked id, `save`
succeeds exactly when one flag among its own `primary` flag and those of its
linked ids is true, and raises `IntegrityError` when zero or more than one are. -/
theorem metagovid_save_one_primary (m : MetagovID) (hpk : m.pk.isSome)
    (hl : m.linked_ids ≠ []) :
    (m.save = .ok () ↔ m.trueCount = 1) ∧
      (m.trueCount ≠ 1 → ∃ e, m.save = .error e) := by
  unfold MetagovID.save
  rw [if_pos ⟨hpk, hl⟩]
  rcases Nat.lt_trichotomy m.trueCount 1 with h | h | h
  · have h0 : m.trueCount = 0 := by omega
    rw [if_pos h0]
    exact ⟨by simp; omega, fun _ => ⟨_, rfl⟩⟩
  · rw [if_neg (by omega), if_neg (by omega)]
    exact ⟨by simp [h], fun hne => absurd h hne⟩
  · rw [if_neg (by omega), if_pos (by omega)]
    exact ⟨by simp; omega, fun _ => ⟨_, rfl⟩⟩

/-- Claim C5 witness: a persisted id with one non-primary linked id and its
own flag true saves successfully, and its true-count is one. -/
theorem metagovid_save_one_primary_witness :
    (MetagovID.save ⟨some 1, true, [⟨false, false⟩]⟩ = .ok () ↔
      MetagovID.trueCount ⟨some 1, true, [⟨false, false⟩]⟩ = 1) ∧
    (MetagovID.trueCount ⟨some 1, true, [⟨false, false⟩]⟩ ≠ 1 →
      ∃ e, MetagovID.save ⟨some 1, true, [⟨false, false⟩]⟩ = .error e) :=
  metagovid_save_one_primary ⟨some 1, true, [⟨false, false⟩]⟩ (by decide) (by decide)

/-- Claim C6: `get_primary_id` returns the node itself exactly when its
`is_primary` holds; any linked id it returns is a member of `linked_ids`
whose `is_primary` holds; and it raises `NoPrimaryFound` exactly when the
node is not primary and none of its linked ids is primary. -/
theorem metagovid_get_primary_spec (m : MetagovID) :
    (m.get_primary_id = .ok .self ↔ m.is_primary = true) ∧
    (∀ l, m.get_primary_id = .ok (.linked l) →
      l ∈ m.linked_ids ∧ l.is_primary = true) ∧
    ((∃ e, m.get_primary_id = .error e) ↔
      (m.is_primary = false ∧ ∀ l ∈ m.linked_ids, l.is_primary = false)) := by
  cases hprim : m.is_primary with
  | true => simp [MetagovID.get_primary_id, hprim]
  | false =>
    cases hfind : m.linked_ids.find? (·.is_primary) with
    | some l0 =>
      have hmem := List.mem_of_find?_eq_some hfind
      have hpr : l0.is_primary = true := List.find?_some hfind
      refine ⟨by simp [MetagovID.get_primary_id, hprim, hfind], ?_, ?_⟩
      · intro l hl
        simp [MetagovID.get_primary_id, hprim, hfind] at hl
        exact hl ▸ ⟨hmem, hpr⟩
      · simp only [MetagovID.get_primary_id, hprim, hfind]
        constructor
        · rintro ⟨e, he⟩; cases he
        · rintro ⟨-, hall⟩
          exact absurd hpr (by simp [hall l0 hmem])
    | none =>
      have hall := List.find?_eq_none.mp hfind
      refine ⟨by simp [MetagovID.get_primary_id, hprim, hfind], ?_, ?_⟩
      · intro l hl
        simp [MetagovID.get_primary_id, hprim, hfind] at hl
      · constructor
        · intro _
          refine ⟨rfl, fun l hm => ?_⟩
          have := hall l hm
          simpa using this
        · intro _
          refine ⟨"No primary ID associated with this external id", ?_⟩
          simp [MetagovID.get_primary_id, hprim, hfind]

/-- Claim C6 witness: a non-primary node whose single linked id is primary
gets that linked id back, and the three clauses hold at this input. -/
theorem metagovid_get_primary_spec_witness :
    (MetagovID.get_primary_id ⟨some 1, false, [⟨true, false⟩]⟩ = .ok .self ↔
      MetagovID.is_primary ⟨some 1, false, [⟨true, false⟩]⟩ = true) ∧
    (∀ l, MetagovID.get_primary_id ⟨some 1, false, [⟨true, false⟩]⟩ = .ok (.linked l) →
      l ∈ MetagovID.linked_ids ⟨some 1, false, [⟨true, false⟩]⟩ ∧ l.is_primary = true) ∧
    ((∃ e, MetagovID.get_primary_id ⟨some 1, false, [⟨true, false⟩]⟩ = .error e) ↔
      (MetagovID.is_primary ⟨some 1, false, [⟨true, false⟩]⟩ = false ∧
        ∀ l ∈ MetagovID.linked_ids ⟨some 1, false, [⟨true, false⟩]⟩, l.is_primary = false)) :=
  metagovid_get_primary_spec ⟨some 1, false, [⟨true, false⟩]⟩

/-- Claim C10: the primary-uniqueness check is skipped for an instance with
no pk yet (first save) and for one with no linked ids: such saves never
raise, regardless of the primary flags involved. -/
theorem metagovid_save_skip (m : MetagovID)
    (h : m.pk = none ∨ m.linked_ids = []) : m.save = .ok () := by
  unfold MetagovID.save
  rcases h with h | h <;> simp [h]

/-- Claim C10 witness: a never-saved id whose linked-id flags would flunk the
check (two primaries) still saves without error. -/
theorem metagovid_save_skip_witness :
    MetagovID.save ⟨none, true, [⟨true, false⟩, ⟨true, false⟩]⟩ = .ok () :=
  metagovid_save_skip ⟨none, true, [⟨true, false⟩, ⟨true, false⟩]⟩ (Or.inl rfl)

/-- Claim C7: saving a new LinkedAccount whose uniqueness tuple is already
claimed by an existing row raises `IntegrityError`, and the write is
rejected with the table left in its prior state. -/
theorem linkedaccount_save_unique (a : LinkedAccountR) (db : List LinkedAccountR)
    (r : LinkedAccountR) (hr : r ∈ db)
    (hmatch : matchesTuple a.community a.platform_type a.platform_identifier
      a.community_platform_id r = true)
    (hnew : a.pk = none) :
    (∃ e, LinkedAccount.save a db = .error e) ∧
      LinkedAccount.trySave a db = db := by
  have hne : db.filter (matchesTuple a.community a.platform_type
      a.platform_identifier a.community_platform_id) ≠ [] := by
    intro hnil
    have hmemf : r ∈ db.filter (matchesTuple a.community a.platform_type
        a.platform_identifier a.community_platform_id) :=
      List.mem_filter.mpr ⟨hr, hmatch⟩
    rw [hnil] at hmemf
    exact absurd hmemf (List.not_mem_nil r)
  have hsave : LinkedAccount.save a db
      = .error "LinkedAccount with the following already exists" := by
    unfold LinkedAccount.save
    rw [if_pos (Or.inl ⟨hnew, hne⟩)]
  exact ⟨⟨_, hsave⟩, by simp [LinkedAccount.trySave, hsave]⟩

/-- Claim C7 witness: inserting a second, unsaved account for the already
claimed tuple (community 1, "slack", "U123", no community platform id) is
rejected and the one-row table is unchanged. -/
theorem linkedaccount_save_unique_witness :
    (∃ e, LinkedAccount.save
      ⟨none, 9, 1, none, "slack", "U123", .nil, .oauth, .unknown⟩
      [⟨some 1, 7, 1, none, "slack", "U123", .nil, .oauth, .unconfirmed⟩] = .error e) ∧
    LinkedAccount.trySave
      ⟨none, 9, 1, none, "slack", "U123", .nil, .oauth, .unknown⟩
      [⟨some 1, 7, 1, none, "slack", "U123", .nil, .oauth, .unconfirmed⟩]
      = [⟨some 1, 7, 1, none, "slack", "U123", .nil, .oauth, .unconfirmed⟩] :=
  linkedaccount_save_unique
    ⟨none, 9, 1, none, "slack", "U123", .nil, .oauth, .unknown⟩
    [⟨some 1, 7, 1, none, "slack", "U123", .nil, .oauth, .unconfirmed⟩]
    ⟨some 1, 7, 1, none, "slack", "U123", .nil, .oauth, .unconfirmed⟩
    (by simp) (by decide) rfl

/-- Input schema declaring `type: object` and requiring the key "x". -/
def schemaReqX : Schema := ⟨some .objectTy, ["x"]⟩

/-- A handler whose invocation is observable: it always returns `true`. -/
def constHandlerTrue : JObj → JVal := fun _ => .jbool true

/-- Claim C2 counterexample: with validation enabled and a declared input
schema requiring the key "x", dispatching with empty parameters — which fail
that schema — still invokes the bound handler and returns its result,
refuting the claim as stated. -/
theorem perform_action_empty_params_counterexample :
    validateJ (.jobj .nil) schemaReqX = false ∧
    (perform_action ⟨some schemaReqX, none⟩ constHandlerTrue .nil true).2 = true ∧
    (perform_action ⟨some schemaReqX, none⟩ constHandlerTrue .nil true).1
      = .ok (.jbool true) :=
  ⟨rfl, rfl, rfl⟩

/-- Claim C2 (amended): for every dispatch whose non-empty parameters fail
the declared input schema, with validation enabled, the bound handler is
never invoked and dispatch fails with the schema-violation error. -/
theorem perform_action_invalid_params (meta : ActionMeta) (handler : JObj → JVal)
    (params : JObj) (s : Schema) (hs : meta.input_schema = some s)
    (hne : params.isEmptyObj = false)
    (hfail : validateJ (.jobj params) s = false) :
    perform_action meta handler params true = (.error .invalidParameters, false) := by
  simp [perform_action, hs, hne, hfail]

/-- Claim C2 witness: parameters `{"y": null}` are non-empty and fail the
schema requiring "x"; dispatch errors without invoking the handler. -/
theorem perform_action_invalid_params_witness :
    perform_action ⟨some schemaReqX, none⟩ constHandlerTrue
      (.cons "y" .jnull .nil) true = (.error .invalidParameters, false) :=
  perform_action_invalid_params ⟨some schemaReqX, none⟩ constHandlerTrue
    (.cons "y" .jnull .nil) schemaReqX rfl rfl rfl

/-- Branches of result validation always follow handler invocation. -/
theorem invokeAction_snd (meta : ActionMeta) (handler : JObj → JVal)
    (params : JObj) (b : Bool) : (invokeAction meta handler params b).2 = true := by
  simp only [invokeAction]
  split
  · split <;> rfl
  · rfl

/-- A falsy result short-circuits result validation. -/
theorem invokeAction_falsy (meta : ActionMeta) (handler : JObj → JVal)
    (params : JObj) (b : Bool) (hres : jtruthy (handler params) = false) :
    invokeAction meta handler params b = (.ok (handler params), true) := by
  simp only [invokeAction, hres, Bool.and_false]
  cases meta.output_schema <;> rfl

/-- When input validation does not reject, dispatch reduces to invocation. -/
theorem perform_action_reaches_handler (meta : ActionMeta)
    (handler : JObj → JVal) (params : JObj)
    (hin : params = .nil ∨ ∀ s, meta.input_schema = some s →
      validateJ (.jobj params) s = true) :
    perform_action meta handler params true
      = invokeAction meta handler params true := by
  cases hms : meta.input_schema with
  | none => simp [perform_action, hms]
  | some s =>
    rcases hin with h | h
    · subst h; simp [perform_action, hms, JObj.isEmptyObj]
    · have hv := h s hms
      cases he : params.isEmptyObj <;> simp [perform_action, hms, he, hv]

/-- Claim C9: with empty (or absent) parameters the input schema is not
checked and the handler is invoked even when a schema is declared; and when
the handler result is falsy, output validation is skipped and the result
is returned unvalidated even when an output schema is declared. -/
theorem perform_action_skip_validation (meta : ActionMeta)
    (handler : JObj → JVal) (params : JObj)
    (hin : params = .nil ∨ ∀ s, meta.input_schema = some s →
      validateJ (.jobj params) s = true) :
    (perform_action meta handler params true).2 = true ∧
    (jtruthy (handler params) = false →
      perform_action meta handler params true = (.ok (handler params), true)) := by
  rw [perform_action_reaches_handler meta handler params hin]
  exact ⟨invokeAction_snd meta handler params true,
    fun hres => invokeAction_falsy meta handler params true hres⟩

/-- A handler returning the falsy result `None`. -/
def nullHandler : JObj → JVal := fun _ => .jnull

/-- Output schema declaring `type: string`, which `null` fails. -/
def schemaStringTy : Schema := ⟨some .stringTy, []⟩

/-- Claim C9 witness: empty parameters against the declared input schema
requiring "x" still invoke the handler, and its falsy `null` result is
returned even though the declared output schema `type: string` rejects it. -/
theorem perform_action_skip_validation_witness :
    (perform_action ⟨some schemaReqX, some schemaStringTy⟩ nullHandler .nil true).2
      = true ∧
    (jtruthy (nullHandler .nil) = false →
      perform_action ⟨some schemaReqX, some schemaStringTy⟩ nullHandler .nil true
        = (.ok (nullHandler .nil), true)) :=
  perform_action_skip_validation ⟨some schemaReqX, some schemaStringTy⟩
    nullHandler .nil (Or.inl rfl)

/-- The in-place upgrade performed on an existing account: new custom data,
link type and link quality; pk and metagov id untouched. -/
def upgradedAccount (r : LinkedAccountR) (cd : JObj) (lt : LinkType)
    (q : LinkQuality) : LinkedAccountR :=
  { r with custom_data := cd, link_type := lt, link_quality := q }

/-- Replace the row with the given pk, leaving all other rows alone. -/
def replaceByPk (pk : Option Nat) (r2 : LinkedAccountR) (x : LinkedAccountR) :
    LinkedAccountR :=
  if x.pk = pk then r2 else x

/-- Claim C3: when the account matched by the uniqueness tuple exists and the
new link quality is equal to or lower than the stored one, add_linked_account
leaves every field of the account (and the whole table) unchanged and returns
the existing record. -/
theorem add_linked_account_no_upgrade (community : Nat) (name : String)
    (cpid : Option String) (st : IdentityState) (pid : String)
    (extid : Option Nat) (cd : Option JObj) (lt : Option LinkType)
    (q : LinkQuality) (r : LinkedAccountR)
    (hfind : st.accounts.find? (matchesTuple community name pid cpid) = some r)
    (hq : q.idx ≤ r.link_quality.idx) :
    Plugin.add_linked_account community name cpid st pid extid cd lt (some q)
      = .ok (r, st) := by
  have hng : quality_is_greater q r.link_quality = false := by
    simp only [quality_is_greater, gt_iff_lt, decide_eq_false_iff_not, not_lt]
    exact hq
  simp [Plugin.add_linked_account, retrieve_account, hfind, hng]

/-- Claim C3 witness: re-adding "U123" with quality equal to the stored
`unconfirmed` returns the stored row and leaves the state untouched. -/
theorem add_linked_account_no_upgrade_witness :
    Plugin.add_linked_account 1 "slack" none
      ⟨[⟨some 1, 7, 1, none, "slack", "U123", .nil, .oauth, .unconfirmed⟩], 10, 2⟩
      "U123" none none none (some .unconfirmed)
      = .ok (⟨some 1, 7, 1, none, "slack", "U123", .nil, .oauth, .unconfirmed⟩,
        ⟨[⟨some 1, 7, 1, none, "slack", "U123", .nil, .oauth, .unconfirmed⟩], 10, 2⟩) :=
  add_linked_account_no_upgrade 1 "slack" none
    ⟨[⟨some 1, 7, 1, none, "slack", "U123", .nil, .oauth, .unconfirmed⟩], 10, 2⟩
    "U123" none none none .unconfirmed
    ⟨some 1, 7, 1, none, "slack", "U123", .nil, .oauth, .unconfirmed⟩
    (by decide) (by decide)

/-- Claim C4: when the account matched by the uniqueness tuple exists and the
new link quality is strictly greater than the stored one, add_linked_account
updates the record in place with the new custom data, link type and link
quality, and returns the upgraded record. -/
theorem add_linked_account_upgrade (community : Nat) (name : String)
    (cpid : Option String) (st : IdentityState) (pid : String)
    (extid : Option Nat) (cd : JObj) (lt : LinkType)
    (q : LinkQuality) (r : LinkedAccountR)
    (hfind : st.accounts.find? (matchesTuple community name pid cpid) = some r)
    (hq : r.link_quality.idx < q.idx) :
    Plugin.add_linked_account community name cpid st pid extid
        (some cd) (some lt) (some q)
      = .ok (upgradedAccount r cd lt q,
        { st with accounts :=
            st.accounts.map (replaceByPk r.pk (upgradedAccount r cd lt q)) }) := by
  have hg : quality_is_greater q r.link_quality = true := by
    simp only [quality_is_greater, gt_iff_lt, decide_eq_true_eq]
    exact hq
  simp [Plugin.add_linked_account, retrieve_account, update_linked_account,
    hfind, hg, upgradedAccount, replaceByPk]

/-- Claim C4 witness: upgrading "U123" from `unconfirmed` to `strong-confirm`
with new custom data and link type rewrites those three fields in place. -/
theorem add_linked_account_upgrade_witness :
    Plugin.add_linked_account 1 "slack" none
      ⟨[⟨some 1, 7, 1, none, "slack", "U123", .nil, .oauth, .unconfirmed⟩], 10, 2⟩
      "U123" none (some (.cons "src" .jnull .nil)) (some .manualAdmin)
      (some .strongConfirm)
      = .ok (upgradedAccount
          ⟨some 1, 7, 1, none, "slack", "U123", .nil, .oauth, .unconfirmed⟩
          (.cons "src" .jnull .nil) .manualAdmin .strongConfirm,
        { accounts := [⟨some 1, 7, 1, none, "slack", "U123",
            .cons "src" .jnull .nil, .manualAdmin, .strongConfirm⟩],
          nextExternalId := 10, nextAccountPk := 2 }) := by
  have h := add_linked_account_upgrade 1 "slack" none
    ⟨[⟨some 1, 7, 1, none, "slack", "U123", .nil, .oauth, .unconfirmed⟩], 10, 2⟩
    "U123" none (.cons "src" .jnull .nil) .manualAdmin .strongConfirm
    ⟨some 1, 7, 1, none, "slack", "U123", .nil, .oauth, .unconfirmed⟩
    (by decide) (by decide)
  rw [h]
  rfl

/-- An engine with empty tables and fresh counters. -/
def engineEmpty : EngineState := ⟨[], [], 0, 0⟩

/-- Type-specific start logic that always raises (`PluginErrorInternal`). -/
def alwaysFailStart : ProcessR → Except String ProcessR :=
  fun _ => .error "start failed"

/-- Claim C1 counterexample: starting a process whose start logic raises, on
an empty engine, re-raises and deletes the process row, but the DataStore
row created for the attempt survives as an orphan — refuting the claim that
a failed start leaves no orphaned state store. -/
theorem start_process_orphan_counterexample :
    (Plugin.start_process engineEmpty "vote" none alwaysFailStart).1
      = .error "start failed" ∧
    (Plugin.start_process engineEmpty "vote" none alwaysFailStart).2.processes
      = [] ∧
    orphanDataStores
      (Plugin.start_process engineEmpty "vote" none alwaysFailStart).2 = [0] :=
  ⟨rfl, rfl, rfl⟩

/-- Claim C1 (amended): if the type-specific start logic raises, the
exception propagates and the just-created GovernanceProcess row is deleted,
but the DataStore row created for the attempt remains in the table (deleting
the process does not cascade to its state store). -/
theorem start_process_rollback (s : EngineState) (nm : String)
    (cb : Option String) (startLogic : ProcessR → Except String ProcessR)
    (e : String)
    (hfresh : ∀ p ∈ s.processes, p.pk < s.nextProcessPk)
    (hfail : startLogic (createProcess s nm cb).1 = .error e) :
    Plugin.start_process s nm cb startLogic
      = (.error e, ⟨s.processes, s.datastores ++ [s.nextDataStorePk],
          s.nextProcessPk + 1, s.nextDataStorePk + 1⟩) := by
  have hfail2 : startLogic
      ⟨s.nextProcessPk, nm, s.nextDataStorePk, .createdStatus, cb⟩ = .error e :=
    hfail
  have hkeep : List.filter (fun p => !decide (p.pk = s.nextProcessPk))
      s.processes = s.processes := by
    apply List.filter_eq_self.mpr
    intro p hp
    have := hfresh p hp
    simp
    omega
  simp only [Plugin.start_process, deleteProcess, createProcess]
  rw [hfail2]
  simp [List.filter_append, hkeep]

/-- Claim C1 witness: one existing process with pk 0; the failing start on
the engine with counters at 1 removes only the new row and leaves the new
data store behind. -/
theorem start_process_rollback_witness :
    Plugin.start_process ⟨[⟨0, "poll", 0, .pendingStatus, none⟩], [0], 1, 1⟩
        "vote" none alwaysFailStart
      = (.error "start failed", ⟨[⟨0, "poll", 0, .pendingStatus, none⟩],
          [0] ++ [1], 1 + 1, 1 + 1⟩) :=
  start_process_rollback ⟨[⟨0, "poll", 0, .pendingStatus, none⟩], [0], 1, 1⟩
    "vote" none alwaysFailStart "start failed" (by decide) rfl
